import Mathlib

/-!
Verification of the OpenOCD remote-bitbang command engine of the
jtag-openocd applet (JTAGOpenOCDSubtarget.elaborate).

The engine is a synchronous clocked process.  Its registered state is the
countdown timer, the driven JTAG lines tck, tms, tdi, the reset lines
trst_o and srst_o, and the blink bit.  On each clock tick the process
either decrements a nonzero timer, or (timer zero) inspects the head byte
of the command stream (out_fifo) and acts on it, possibly producing one
byte into the sample stream (in_fifo).  We embed one tick as a pure step
function over this state, with the command stream as a list of bytes and
the environment signals w_rdy (sample sink has space) and tdo (the sampled
line) given as inputs of the tick.
-/

namespace JTAGOpenOCD

/-- Registered state of the engine: the countdown timer and the six
driven one-bit signals.  All registers initialise to zero. -/
structure EngineState where
  timer  : Nat
  tck    : Bool
  tms    : Bool
  tdi    : Bool
  trst_o : Bool
  srst_o : Bool
  blink  : Bool
  deriving Repr, DecidableEq

/-- Initial register state: every Amaranth Signal here has init 0. -/
def initState : EngineState :=
  { timer := 0, tck := false, tms := false, tdi := false,
    trst_o := false, srst_o := false, blink := false }

/-- Result of one clock tick: the next registered state, whether the head
input byte was consumed (out_fifo.r_en taken), and the byte written to the
sample sink, if any. -/
structure StepResult where
  state    : EngineState
  consumed : Bool
  output   : Option Nat
  deriving Repr, DecidableEq

/-- Command bytes 0x30..0x37, the characters 0 to 7: set tdi, tms, tck. -/
def isSignalCmd (b : Nat) : Bool :=
  48 ≤ b && b ≤ 55

/-- Command bytes 0x72..0x75, the characters r, s, t, u: set the reset pair. -/
def isResetCmd (b : Nat) : Bool :=
  b == 114 || b == 115 || b == 116 || b == 117

/-- Every command byte the Switch recognises; any other byte falls into the
Default case, which keeps r_en low so that the engine hangs. -/
def isKnownCmd (b : Nat) : Bool :=
  isSignalCmd b || isResetCmd b || b == 82 || b == 66 || b == 98 ||
    b == 90 || b == 122 || b == 81

/-- One clock tick of the engine, translated from the m.If / m.Switch block
of JTAGOpenOCDSubtarget.elaborate.  period_cyc and us_cyc are the elaboration
parameters; input is the head of out_fifo when r_rdy, w_rdy is in_fifo.w_rdy,
tdo is the sampled bus line. -/
def step (period_cyc us_cyc : Nat) (s : EngineState) (input : Option Nat)
    (w_rdy tdo : Bool) : StepResult :=
  if s.timer ≠ 0 then
    { state := { s with timer := s.timer - 1 }, consumed := false, output := none }
  else
    match input with
    | none => { state := s, consumed := false, output := none }
    | some b =>
      if isSignalCmd b then
        { state := { s with tdi := b.testBit 0, tms := b.testBit 1,
                            tck := b.testBit 2, timer := period_cyc - 1 },
          consumed := true, output := none }
      else if isResetCmd b then
        { state := { s with srst_o := (b - 114).testBit 0,
                            trst_o := (b - 114).testBit 1 },
          consumed := true, output := none }
      else if b == 82 then
        if w_rdy then
          { state := s, consumed := true, output := some (48 ||| tdo.toNat) }
        else
          { state := s, consumed := false, output := none }
      else if b == 66 || b == 98 then
        { state := { s with blink := !(b.testBit 5) }, consumed := true, output := none }
      else if b == 90 then
        { state := { s with timer := 1000 * us_cyc - 1 }, consumed := true, output := none }
      else if b == 122 then
        { state := { s with timer := us_cyc - 1 }, consumed := true, output := none }
      else if b == 81 then
        { state := s, consumed := true, output := none }
      else
        { state := s, consumed := false, output := none }

/-- Engine state together with the two byte streams: the remaining command
bytes and the sample bytes produced so far, in order. -/
structure SysState where
  engine  : EngineState
  inputs  : List Nat
  outputs : List Nat
  deriving Repr, DecidableEq

/-- One tick at the stream level: run step on the head of the command
stream, drop the head if it was consumed, append the produced byte. -/
def sysStep (period_cyc us_cyc : Nat) (σ : SysState) (w_rdy tdo : Bool) : SysState :=
  let r := step period_cyc us_cyc σ.engine σ.inputs.head? w_rdy tdo
  { engine  := r.state
    inputs  := if r.consumed then σ.inputs.tail else σ.inputs
    outputs := σ.outputs ++ r.output.toList }

/-- Run the engine for a list of environment ticks, each tick supplying the
pair (w_rdy, tdo). -/
def sysRun (period_cyc us_cyc : Nat) (σ : SysState) : List (Bool × Bool) → SysState
  | [] => σ
  | e :: es => sysRun period_cyc us_cyc (sysStep period_cyc us_cyc σ e.1 e.2) es

/-- Run the engine for n ticks with a constant environment. -/
def runTicks (period_cyc us_cyc : Nat) (w_rdy tdo : Bool) (σ : SysState) (n : Nat) :
    SysState :=
  sysRun period_cyc us_cyc σ (List.replicate n (w_rdy, tdo))

/-! ### Helper lemmas -/

theorem step_timer_pos (pc uc : Nat) (s : EngineState) (i : Option Nat) (w td : Bool)
    (h : s.timer ≠ 0) :
    step pc uc s i w td =
      { state := { s with timer := s.timer - 1 }, consumed := false, output := none } := by
  simp [step, h]

theorem sysStep_timer_pos (pc uc : Nat) (σ : SysState) (w td : Bool)
    (h : σ.engine.timer ≠ 0) :
    sysStep pc uc σ w td =
      { σ with engine := { σ.engine with timer := σ.engine.timer - 1 } } := by
  simp [sysStep, step_timer_pos pc uc σ.engine σ.inputs.head? w td h]

theorem sysRun_stall (pc uc : Nat) (es : List (Bool × Bool)) (σ : SysState)
    (h : es.length ≤ σ.engine.timer) :
    sysRun pc uc σ es =
      { σ with engine := { σ.engine with timer := σ.engine.timer - es.length } } := by
  induction es generalizing σ with
  | nil => simp [sysRun]
  | cons e es ih =>
    have ht : σ.engine.timer ≠ 0 := by
      simp only [List.length_cons] at h; omega
    have h2 : es.length ≤ σ.engine.timer - 1 := by
      simp only [List.length_cons] at h; omega
    rw [sysRun, sysStep_timer_pos pc uc σ e.1 e.2 ht, ih _ (by simpa using h2)]
    simp only [List.length_cons]
    congr 2
    omega

theorem runTicks_stall (pc uc : Nat) (w td : Bool) (σ : SysState) (n : Nat)
    (h : n ≤ σ.engine.timer) :
    runTicks pc uc w td σ n =
      { σ with engine := { σ.engine with timer := σ.engine.timer - n } } := by
  rw [runTicks, sysRun_stall pc uc _ σ (by simpa using h)]
  simp

theorem sysRun_append (pc uc : Nat) (es fs : List (Bool × Bool)) (σ : SysState) :
    sysRun pc uc σ (es ++ fs) = sysRun pc uc (sysRun pc uc σ es) fs := by
  induction es generalizing σ with
  | nil => simp [sysRun]
  | cons e es ih => simp [sysRun, ih]

theorem runTicks_add (pc uc : Nat) (w td : Bool) (σ : SysState) (m n : Nat) :
    runTicks pc uc w td σ (m + n) = runTicks pc uc w td (runTicks pc uc w td σ m) n := by
  simp only [runTicks]
  rw [← sysRun_append]
  congr 1
  rw [List.replicate_add]

theorem runTicks_succ (pc uc : Nat) (w td : Bool) (σ : SysState) (n : Nat) :
    runTicks pc uc w td σ (n + 1) = runTicks pc uc w td (sysStep pc uc σ w td) n := by
  simp only [runTicks, List.replicate_succ, sysRun]

theorem step_stuck (pc uc : Nat) (s : EngineState) (b : Nat) (w td : Bool)
    (h0 : s.timer = 0) (hb : isKnownCmd b = false) :
    step pc uc s (some b) w td = { state := s, consumed := false, output := none } := by
  simp only [isKnownCmd, Bool.or_eq_false_iff, beq_eq_false_iff_ne, ne_eq] at hb
  obtain ⟨⟨⟨⟨⟨⟨⟨hsig, hrst⟩, hR⟩, hB⟩, hb'⟩, hZ⟩, hz⟩, hQ⟩ := hb
  simp [step, h0, hsig, hrst, hR, hB, hb', hZ, hz, hQ]

theorem sysStep_stuck (pc uc : Nat) (σ : SysState) (b : Nat) (w td : Bool)
    (h0 : σ.engine.timer = 0) (hh : σ.inputs.head? = some b)
    (hb : isKnownCmd b = false) :
    sysStep pc uc σ w td = σ := by
  simp [sysStep, hh, step_stuck pc uc σ.engine b w td h0 hb]

theorem sysRun_stuck (pc uc : Nat) (b : Nat) (hb : isKnownCmd b = false)
    (es : List (Bool × Bool)) (σ : SysState) (hh : σ.inputs.head? = some b) :
    (sysRun pc uc σ es).inputs = σ.inputs ∧ (sysRun pc uc σ es).outputs = σ.outputs := by
  induction es generalizing σ with
  | nil => exact ⟨rfl, rfl⟩
  | cons e es ih =>
    by_cases h0 : σ.engine.timer = 0
    · rw [sysRun, sysStep_stuck pc uc σ b e.1 e.2 h0 hh hb]
      exact ih σ hh
    · rw [sysRun, sysStep_timer_pos pc uc σ e.1 e.2 h0]
      exact ih _ hh

theorem step_R_full (pc uc : Nat) (s : EngineState) (td : Bool) (h0 : s.timer = 0) :
    step pc uc s (some 82) true td =
      { state := s, consumed := true, output := some (48 ||| td.toNat) } := by
  simp [step, h0, isSignalCmd, isResetCmd]

theorem step_R_stall (pc uc : Nat) (s : EngineState) (td : Bool) (h0 : s.timer = 0) :
    step pc uc s (some 82) false td =
      { state := s, consumed := false, output := none } := by
  simp [step, h0, isSignalCmd, isResetCmd]

theorem runTicks_zero (pc uc : Nat) (w td : Bool) (σ : SysState) :
    runTicks pc uc w td σ 0 = σ := rfl

theorem step_Z (pc uc : Nat) (s : EngineState) (w td : Bool) (h0 : s.timer = 0) :
    step pc uc s (some 90) w td =
      { state := { s with timer := 1000 * uc - 1 }, consumed := true, output := none } := by
  simp [step, h0, isSignalCmd, isResetCmd]

theorem step_z_short (pc uc : Nat) (s : EngineState) (w td : Bool) (h0 : s.timer = 0) :
    step pc uc s (some 122) w td =
      { state := { s with timer := uc - 1 }, consumed := true, output := none } := by
  simp [step, h0, isSignalCmd, isResetCmd]

/-- A command at the head of the stream that only arms the timer to t - 1,
followed by a sample command: the sample byte is absent for the first t
ticks and appears on tick t + 1. -/
theorem sleep_then_sample (pc uc t c : Nat) (s : EngineState) (td : Bool)
    (rest outs : List Nat) (ht : 1 ≤ t)
    (hc : step pc uc s (some c) true td =
      { state := { s with timer := t - 1 }, consumed := true, output := none }) :
    (runTicks pc uc true td { engine := s, inputs := c :: 82 :: rest, outputs := outs }
        t).outputs = outs ∧
    (runTicks pc uc true td { engine := s, inputs := c :: 82 :: rest, outputs := outs }
        (t + 1)).outputs = outs ++ [48 ||| td.toNat] := by
  have h1 : runTicks pc uc true td
      { engine := s, inputs := c :: 82 :: rest, outputs := outs } 1 =
      { engine := { s with timer := t - 1 }, inputs := 82 :: rest, outputs := outs } := by
    rw [runTicks_succ, runTicks_zero]
    simp [sysStep, hc]
  have hrunt : runTicks pc uc true td
      { engine := s, inputs := c :: 82 :: rest, outputs := outs } t =
      { engine := { s with timer := 0 }, inputs := 82 :: rest, outputs := outs } := by
    conv_lhs => rw [show t = 1 + (t - 1) by omega]
    rw [runTicks_add, h1, runTicks_stall pc uc true td _ (t - 1) (by simp)]
    simp
  refine ⟨by rw [hrunt], ?_⟩
  rw [runTicks_add, hrunt, runTicks_succ, runTicks_zero]
  have hR := step_R_full pc uc { s with timer := 0 } td rfl
  simp [sysStep, hR]

/-! ### Claims -/

/-- C5: on every tick with a nonzero timer, the engine decrements the timer
by one and does nothing else: no byte consumed, no byte produced, and tck,
tms, tdi, trst_o, srst_o and blink unchanged; with the timer zero and no
input byte available, the engine idles with no state change at all. -/
theorem claim_C5 (pc uc : Nat) (s : EngineState) (i : Option Nat) (w td : Bool) :
    (s.timer ≠ 0 →
      step pc uc s i w td =
        { state := { s with timer := s.timer - 1 }, consumed := false, output := none }) ∧
    (s.timer = 0 →
      step pc uc s none w td = { state := s, consumed := false, output := none }) :=
  ⟨fun h => step_timer_pos pc uc s i w td h, fun h => by simp [step, h]⟩

theorem claim_C5_witness :
    step 4 2 { initState with timer := 7 } (some 48) true false =
      { state := { initState with timer := 6 }, consumed := false, output := none } ∧
    step 4 2 initState none true false =
      { state := initState, consumed := false, output := none } :=
  ⟨(claim_C5 4 2 { initState with timer := 7 } (some 48) true false).1 (by decide),
   (claim_C5 4 2 initState none true false).2 rfl⟩

/-- C8: a reset command byte r, s, t or u (0x72..0x75) consumed with the
timer zero loads bit 0 of (byte - 0x72) into srst_o and bit 1 into trst_o,
consumes the byte, produces nothing, and does not arm the timer, so the
next command can be accepted on the next tick. -/
theorem claim_C8 (pc uc : Nat) (s : EngineState) (b : Nat) (w td : Bool)
    (h0 : s.timer = 0) (hb : b = 114 ∨ b = 115 ∨ b = 116 ∨ b = 117) :
    step pc uc s (some b) w td =
      { state := { s with srst_o := (b - 114).testBit 0, trst_o := (b - 114).testBit 1 },
        consumed := true, output := none } ∧
    (step pc uc s (some b) w td).state.timer = 0 := by
  have hsig : isSignalCmd b = false := by
    rcases hb with h | h | h | h <;> simp [isSignalCmd, h]
  have hrst : isResetCmd b = true := by
    rcases hb with h | h | h | h <;> simp [isResetCmd, h]
  refine ⟨by simp [step, h0, hsig, hrst], ?_⟩
  simp [step, h0, hsig, hrst, h0]

theorem claim_C8_witness :
    (step 4 2 initState (some 117) true false =
      { state := { initState with srst_o := true, trst_o := true },
        consumed := true, output := none } ∧
    (step 4 2 initState (some 117) true false).state.timer = 0) := by
  have h := claim_C8 4 2 initState 117 true false rfl (by norm_num)
  simpa using h

/-- C9: a blink command byte B (0x42) or b (0x62) consumed with the timer
zero sets blink to the complement of bit 5 of the byte regardless of the
previous blink value: B sets blink to true, b sets it to false; the byte is
consumed, nothing is produced and the timer is not armed. -/
theorem claim_C9 (pc uc : Nat) (s : EngineState) (b : Nat) (w td : Bool)
    (h0 : s.timer = 0) (hb : b = 66 ∨ b = 98) :
    step pc uc s (some b) w td =
      { state := { s with blink := !(b.testBit 5) }, consumed := true, output := none } ∧
    (b = 66 → (step pc uc s (some b) w td).state.blink = true) ∧
    (b = 98 → (step pc uc s (some b) w td).state.blink = false) ∧
    (step pc uc s (some b) w td).state.timer = 0 := by
  rcases hb with h | h <;> subst h <;>
    refine ⟨by simp [step, h0, isSignalCmd, isResetCmd], ?_, ?_, ?_⟩ <;>
    simp [step, h0, isSignalCmd, isResetCmd] <;> decide

theorem claim_C9_witness :
    (step 4 2 initState (some 66) true false).state.blink = true ∧
    (step 4 2 { initState with blink := true } (some 98) true false).state.blink = false :=
  ⟨(claim_C9 4 2 initState 66 true false rfl (Or.inl rfl)).2.1 rfl,
   (claim_C9 4 2 { initState with blink := true } 98 true false rfl (Or.inr rfl)).2.2.1 rfl⟩

/-- C2: an R command byte (0x52) consumed with the timer zero and the
sample sink ready consumes exactly that byte, leaves the engine state
unchanged, and appends exactly one output byte, equal to 0x30 OR tdo and
hence 0x30 or 0x31: one sample byte per R command, in the order of the R
commands. -/
theorem claim_C2 (pc uc : Nat) (s : EngineState) (td : Bool) (rest outs : List Nat)
    (h0 : s.timer = 0) :
    sysStep pc uc { engine := s, inputs := 82 :: rest, outputs := outs } true td =
      { engine := s, inputs := rest, outputs := outs ++ [48 ||| td.toNat] } ∧
    (48 ||| td.toNat = 48 ∨ 48 ||| td.toNat = 49) := by
  refine ⟨?_, ?_⟩
  · simp [sysStep, step_R_full pc uc s td h0]
  · cases td <;> simp

theorem claim_C2_witness :
    (sysStep 4 2 { engine := initState, inputs := [82, 81], outputs := [48] } true true =
      { engine := initState, inputs := [81], outputs := [48, 49] }) ∧
    (48 ||| Bool.toNat true = 48 ∨ 48 ||| Bool.toNat true = 49) := by
  have h := claim_C2 4 2 initState true [81] [48] rfl
  simpa using h

/-- C3: with an R command byte (0x52) at the head of the input and the
sample sink not ready, the engine neither consumes the byte nor changes any
state, for any number of such ticks; on the first tick where the sink is
ready, the R is consumed and its sample appended. -/
theorem claim_C3 (pc uc n : Nat) (s : EngineState) (td td2 : Bool) (rest outs : List Nat)
    (h0 : s.timer = 0) :
    runTicks pc uc false td { engine := s, inputs := 82 :: rest, outputs := outs } n =
      { engine := s, inputs := 82 :: rest, outputs := outs } ∧
    sysStep pc uc { engine := s, inputs := 82 :: rest, outputs := outs } true td2 =
      { engine := s, inputs := rest, outputs := outs ++ [48 ||| td2.toNat] } := by
  refine ⟨?_, by simp [sysStep, step_R_full pc uc s td2 h0]⟩
  induction n with
  | zero => simp [runTicks, sysRun]
  | succ n ih =>
    rw [runTicks_succ]
    have hstep :
        sysStep pc uc { engine := s, inputs := 82 :: rest, outputs := outs } false td =
          { engine := s, inputs := 82 :: rest, outputs := outs } := by
      simp [sysStep, step_R_stall pc uc s td h0]
    rw [hstep]
    exact ih

theorem claim_C3_witness :
    (runTicks 4 2 false false { engine := initState, inputs := [82], outputs := [] } 5 =
      { engine := initState, inputs := [82], outputs := [] }) ∧
    (sysStep 4 2 { engine := initState, inputs := [82], outputs := [] } true true =
      { engine := initState, inputs := [], outputs := [49] }) := by
  have h := claim_C3 4 2 5 initState false true [] [] rfl
  simpa using h

/-- C4: a byte outside the recognised command set at the head of the input
is never consumed: for every sequence of subsequent ticks, whatever the
sink readiness and tdo are on each tick, no input byte is consumed and no
output byte is produced. -/
theorem claim_C4 (pc uc : Nat) (b : Nat) (σ : SysState) (es : List (Bool × Bool))
    (hh : σ.inputs.head? = some b) (hb : isKnownCmd b = false) :
    (sysRun pc uc σ es).inputs = σ.inputs ∧ (sysRun pc uc σ es).outputs = σ.outputs :=
  sysRun_stuck pc uc b hb es σ hh

/-- C1: a signal command byte 0x30..0x37 consumed with the timer zero is
consumed on that tick and loads bit 0 of the byte into tdi, bit 1 into tms
and bit 2 into tck in the next-tick state, arming the timer to
period_cyc - 1, so that for any up-to period_cyc - 1 further ticks no byte
is consumed and nothing produced, and after exactly period_cyc - 1 further
ticks the timer is back to zero and a new command can be accepted: exactly
period_cyc ticks between accepted commands. -/
theorem claim_C1 (pc uc : Nat) (s : EngineState) (b : Nat) (w td : Bool)
    (rest outs : List Nat) (es : List (Bool × Bool))
    (h0 : s.timer = 0) (hb1 : 48 ≤ b) (hb2 : b ≤ 55)
    (hes : es.length ≤ pc - 1) :
    (step pc uc s (some b) w td).consumed = true ∧
    (step pc uc s (some b) w td).state.tdi = b.testBit 0 ∧
    (step pc uc s (some b) w td).state.tms = b.testBit 1 ∧
    (step pc uc s (some b) w td).state.tck = b.testBit 2 ∧
    (step pc uc s (some b) w td).state.timer = pc - 1 ∧
    (sysRun pc uc (sysStep pc uc { engine := s, inputs := b :: rest, outputs := outs } w td)
        es).inputs = rest ∧
    (sysRun pc uc (sysStep pc uc { engine := s, inputs := b :: rest, outputs := outs } w td)
        es).outputs = outs ∧
    (runTicks pc uc w td
        (sysStep pc uc { engine := s, inputs := b :: rest, outputs := outs } w td)
        (pc - 1)).engine.timer = 0 := by
  have hsig : isSignalCmd b = true := by
    simp only [isSignalCmd, Bool.and_eq_true, decide_eq_true_eq]; omega
  have hstep : step pc uc s (some b) w td =
      { state := { s with tdi := b.testBit 0, tms := b.testBit 1,
                          tck := b.testBit 2, timer := pc - 1 },
        consumed := true, output := none } := by
    simp [step, h0, hsig]
  have hσ1 : sysStep pc uc { engine := s, inputs := b :: rest, outputs := outs } w td =
      { engine := { s with tdi := b.testBit 0, tms := b.testBit 1,
                           tck := b.testBit 2, timer := pc - 1 },
        inputs := rest, outputs := outs } := by
    simp [sysStep, hstep]
  have hstall := sysRun_stall pc uc es
    { engine := { s with tdi := b.testBit 0, tms := b.testBit 1,
                         tck := b.testBit 2, timer := pc - 1 },
      inputs := rest, outputs := outs } (by simpa using hes)
  have hzero := runTicks_stall pc uc w td
    { engine := { s with tdi := b.testBit 0, tms := b.testBit 1,
                         tck := b.testBit 2, timer := pc - 1 },
      inputs := rest, outputs := outs } (pc - 1) (by simp)
  refine ⟨by rw [hstep], by rw [hstep], by rw [hstep], by rw [hstep], by rw [hstep],
          by rw [hσ1, hstall], by rw [hσ1, hstall], ?_⟩
  rw [hσ1, hzero]
  simp

theorem claim_C1_witness :
    (step 3 2 initState (some 53) true false).consumed = true ∧
    (step 3 2 initState (some 53) true false).state.tdi = Nat.testBit 53 0 ∧
    (step 3 2 initState (some 53) true false).state.tms = Nat.testBit 53 1 ∧
    (step 3 2 initState (some 53) true false).state.tck = Nat.testBit 53 2 ∧
    (step 3 2 initState (some 53) true false).state.timer = 3 - 1 ∧
    (sysRun 3 2 (sysStep 3 2 { engine := initState, inputs := [53], outputs := [] } true false)
        [(true, false)]).inputs = [] ∧
    (sysRun 3 2 (sysStep 3 2 { engine := initState, inputs := [53], outputs := [] } true false)
        [(true, false)]).outputs = [] ∧
    (runTicks 3 2 true false
        (sysStep 3 2 { engine := initState, inputs := [53], outputs := [] } true false)
        (3 - 1)).engine.timer = 0 :=
  claim_C1 3 2 initState 53 true false [] [] [(true, false)] rfl (by norm_num)
    (by norm_num) (by norm_num)

/-- C6: consuming Z (0x5A) with the timer zero arms the timer to
1000 * us_cyc - 1 and consuming z (0x7A) arms it to us_cyc - 1; hence an R
sample command sent immediately after Z (resp. z) produces no response
during the first 1000 * us_cyc (resp. us_cyc) ticks, the response appearing
only on the tick after, a delay of exactly 1000 * us_cyc (resp. us_cyc)
ticks relative to the single tick an immediate sample takes. -/
theorem claim_C6 (pc uc : Nat) (s : EngineState) (w td : Bool) (rest outs : List Nat)
    (h0 : s.timer = 0) (huc : 1 ≤ uc) :
    (step pc uc s (some 90) w td).state.timer = 1000 * uc - 1 ∧
    (step pc uc s (some 122) w td).state.timer = uc - 1 ∧
    (runTicks pc uc true td { engine := s, inputs := 90 :: 82 :: rest, outputs := outs }
        (1000 * uc)).outputs = outs ∧
    (runTicks pc uc true td { engine := s, inputs := 90 :: 82 :: rest, outputs := outs }
        (1000 * uc + 1)).outputs = outs ++ [48 ||| td.toNat] ∧
    (runTicks pc uc true td { engine := s, inputs := 122 :: 82 :: rest, outputs := outs }
        uc).outputs = outs ∧
    (runTicks pc uc true td { engine := s, inputs := 122 :: 82 :: rest, outputs := outs }
        (uc + 1)).outputs = outs ++ [48 ||| td.toNat] := by
  have hZ := sleep_then_sample pc uc (1000 * uc) 90 s td rest outs (by omega)
    (step_Z pc uc s true td h0)
  have hz := sleep_then_sample pc uc uc 122 s td rest outs huc
    (step_z_short pc uc s true td h0)
  exact ⟨by rw [step_Z pc uc s w td h0], by rw [step_z_short pc uc s w td h0],
         hZ.1, hZ.2, hz.1, hz.2⟩

theorem claim_C6_witness :
    (step 2 1 initState (some 90) true true).state.timer = 1000 * 1 - 1 ∧
    (step 2 1 initState (some 122) true true).state.timer = 1 - 1 ∧
    (runTicks 2 1 true true { engine := initState, inputs := 90 :: 82 :: [], outputs := [] }
        (1000 * 1)).outputs = [] ∧
    (runTicks 2 1 true true { engine := initState, inputs := 90 :: 82 :: [], outputs := [] }
        (1000 * 1 + 1)).outputs = [] ++ [48 ||| Bool.toNat true] ∧
    (runTicks 2 1 true true { engine := initState, inputs := 122 :: 82 :: [], outputs := [] }
        1).outputs = [] ∧
    (runTicks 2 1 true true { engine := initState, inputs := 122 :: 82 :: [], outputs := [] }
        (1 + 1)).outputs = [] ++ [48 ||| Bool.toNat true] :=
  claim_C6 2 1 initState true true [] [] rfl (by norm_num)

/-- C7: the timer stays in the range 0 .. max period_cyc (1000 * us_cyc) - 1:
the initial timer is in range, and one tick from any in-range state leaves
it in range, whatever the input byte and environment. -/
theorem claim_C7 (pc uc : Nat) (s : EngineState) (i : Option Nat) (w td : Bool)
    (h : s.timer ≤ max pc (1000 * uc) - 1) :
    initState.timer ≤ max pc (1000 * uc) - 1 ∧
    (step pc uc s i w td).state.timer ≤ max pc (1000 * uc) - 1 := by
  have h1 : pc ≤ max pc (1000 * uc) := le_max_left _ _
  have h2 : 1000 * uc ≤ max pc (1000 * uc) := le_max_right _ _
  refine ⟨Nat.zero_le _, ?_⟩
  rcases i with _ | b
  · by_cases h0 : s.timer = 0
    · simp [step, h0]
    · simp [step, h0]
      omega
  · by_cases h0 : s.timer = 0
    · simp only [step, h0]
      split_ifs <;> simp <;> omega
    · simp only [step, h0, if_neg, ne_eq, not_false_iff, if_pos]
      omega

theorem claim_C7_witness :
    initState.timer ≤ max 4 (1000 * 2) - 1 ∧
    (step 4 2 initState (some 90) true false).state.timer ≤ max 4 (1000 * 2) - 1 :=
  claim_C7 4 2 initState (some 90) true false (Nat.zero_le _)

theorem claim_C4_witness :
    (sysRun 4 2 { engine := initState, inputs := [88, 48], outputs := [] }
        [(true, true), (false, false), (true, false)]).inputs = [88, 48] ∧
    (sysRun 4 2 { engine := initState, inputs := [88, 48], outputs := [] }
        [(true, true), (false, false), (true, false)]).outputs = [] :=
  claim_C4 4 2 88 { engine := initState, inputs := [88, 48], outputs := [] }
    [(true, true), (false, false), (true, false)] rfl (by decide)

/-- C10: each signal group changes only under its own command: tck, tms,
tdi change only when a 0x30..0x37 byte is consumed, srst_o and trst_o only
when an r, s, t or u byte is, blink only on B or b, and consuming Q (0x51)
leaves every register, blink and timer included, unchanged; tdo is an input
of the tick, never part of the engine state. -/
theorem claim_C10 (pc uc : Nat) (s : EngineState) (i : Option Nat) (w td : Bool) :
    (((step pc uc s i w td).state.tck ≠ s.tck ∨
      (step pc uc s i w td).state.tms ≠ s.tms ∨
      (step pc uc s i w td).state.tdi ≠ s.tdi) →
      s.timer = 0 ∧ ∃ b, i = some b ∧ isSignalCmd b = true) ∧
    (((step pc uc s i w td).state.srst_o ≠ s.srst_o ∨
      (step pc uc s i w td).state.trst_o ≠ s.trst_o) →
      s.timer = 0 ∧ ∃ b, i = some b ∧ isResetCmd b = true) ∧
    ((step pc uc s i w td).state.blink ≠ s.blink →
      s.timer = 0 ∧ ∃ b, i = some b ∧ (b = 66 ∨ b = 98)) ∧
    (i = some 81 ∧ s.timer = 0 →
      step pc uc s i w td = { state := s, consumed := true, output := none }) := by
  by_cases h0 : s.timer = 0
  · rcases i with _ | b
    · simp [step, h0]
    · by_cases h1 : isSignalCmd b
      · have hs : step pc uc s (some b) w td =
            { state := { s with tdi := b.testBit 0, tms := b.testBit 1,
                                tck := b.testBit 2, timer := pc - 1 },
              consumed := true, output := none } := by
          simp [step, h0, h1]
        rw [hs]
        refine ⟨fun _ => ⟨h0, b, rfl, h1⟩, by simp, by simp, ?_⟩
        rintro ⟨hb, -⟩
        injection hb with hb
        subst hb
        simp [isSignalCmd] at h1
      · by_cases h2 : isResetCmd b
        · have hs : step pc uc s (some b) w td =
              { state := { s with srst_o := (b - 114).testBit 0,
                                  trst_o := (b - 114).testBit 1 },
                consumed := true, output := none } := by
            simp [step, h0, h1, h2]
          rw [hs]
          refine ⟨by simp, fun _ => ⟨h0, b, rfl, h2⟩, by simp, ?_⟩
          rintro ⟨hb, -⟩
          injection hb with hb
          subst hb
          simp [isResetCmd] at h2
        · by_cases h3 : b = 82
          · subst h3
            rcases w with _ | _
            · rw [step_R_stall pc uc s td h0]
              refine ⟨by simp, by simp, by simp, ?_⟩
              rintro ⟨hb, -⟩
              simp at hb
            · rw [step_R_full pc uc s td h0]
              refine ⟨by simp, by simp, by simp, ?_⟩
              rintro ⟨hb, -⟩
              simp at hb
          · by_cases h4 : b = 66 ∨ b = 98
            · have hs : step pc uc s (some b) w td =
                  { state := { s with blink := !(b.testBit 5) },
                    consumed := true, output := none } := by
                rcases h4 with h | h <;> subst h <;>
                  simp [step, h0, isSignalCmd, isResetCmd]
              rw [hs]
              refine ⟨by simp, by simp, fun _ => ⟨h0, b, rfl, h4⟩, ?_⟩
              rintro ⟨hb, -⟩
              rcases h4 with h | h <;> subst h <;> simp at hb
            · by_cases h5 : b = 90
              · subst h5
                rw [step_Z pc uc s w td h0]
                refine ⟨by simp, by simp, by simp, ?_⟩
                rintro ⟨hb, -⟩
                simp at hb
              · by_cases h6 : b = 122
                · subst h6
                  rw [step_z_short pc uc s w td h0]
                  refine ⟨by simp, by simp, by simp, ?_⟩
                  rintro ⟨hb, -⟩
                  simp at hb
                · by_cases h7 : b = 81
                  · subst h7
                    have hs : step pc uc s (some 81) w td =
                        { state := s, consumed := true, output := none } := by
                      simp [step, h0, isSignalCmd, isResetCmd]
                    rw [hs]
                    exact ⟨by simp, by simp, by simp, fun _ => rfl⟩
                  · have hs : step pc uc s (some b) w td =
                        { state := s, consumed := false, output := none } := by
                      simp [step, h0, h1, h2, h3, h4, h5, h6, h7]
                    rw [hs]
                    refine ⟨by simp, by simp, by simp, ?_⟩
                    rintro ⟨hb, -⟩
                    injection hb with hb
                    exact absurd hb h7
  · rw [step_timer_pos pc uc s i w td h0]
    simp [h0]

theorem claim_C10_witness :
    step 4 2 initState (some 81) true false =
      { state := initState, consumed := true, output := none } :=
  (claim_C10 4 2 initState (some 81) true false).2.2.2 ⟨rfl, rfl⟩

end JTAGOpenOCD
